import Mathlib

/-!
# Verification of the Schedule Grid Renderer

Shallow embedding of `generate_weekly_schedule_transpose_12hr` from `src/main.py`
(the Schedule Grid Renderer), together with theorems checking the specification's
claims against it.

Conventions of the embedding:
* A parsed `"hh:mm AM/PM"` time value is a `WallTime` (hour/minute pair), the
  result of Python's `datetime.strptime(s, "%I:%M %p").time()`.
* The `schedule_dict` argument is a `Week`: an association list from weekday
  name to the day's list of `(start, end)` pairs; `day in schedule_dict`
  becomes `(w.lookup day).isSome`.
* Python exceptions become `Except RenderError _`; `list.index` and `min`/`max`
  over an empty sequence raise `ValueError`, modelled by the corresponding
  `RenderError` constructors.
-/

/-- A wall-clock time as produced by parsing `"hh:mm AM/PM"`: hour 0–23, minute 0–59. -/
structure WallTime where
  hour : Nat
  minute : Nat
deriving DecidableEq, Repr

/-- `datetime.strptime("12:00 AM", "%I:%M %p").time()`, the sentinel used by the
source for days absent from the schedule dictionary. -/
def midnight : WallTime := ⟨0, 0⟩

/-- One scheduled block: a `(start, end)` pair of wall-clock times. -/
abbrev TimeInterval := WallTime × WallTime

/-- The `schedule_dict` input: weekday name ↦ list of intervals.  A day missing
from the mapping is an absent day. -/
abbrev Week := List (String × List TimeInterval)

/-- The fixed weekday sequence of `src/main.py` line 27. -/
def daysList : List String := ["Monday", "Tuesday", "Wednesday", "Thursday", "Friday"]

/-- Lines 30–31: `days[start_index:] + days[:start_index]`, with `days.index`
raising on an unknown start day (hence `Option`). -/
def rotatedDays (startDay : String) : Option (List String) :=
  (daysList.indexOf? startDay).map fun i => daysList.drop i ++ daysList.take i

/-- Lines 34–47: the `(day, start_time, end_time)` triples contributed by one
day; an absent day contributes the midnight-to-midnight sentinel slot. -/
def daySlots (w : Week) (day : String) : List (String × WallTime × WallTime) :=
  match w.lookup day with
  | some slots => slots.map fun se => (day, se.1, se.2)
  | none => [(day, midnight, midnight)]

/-- Lines 33–47: `time_slots`, accumulated over the rotated day order. -/
def timeSlots (w : Week) (ds : List String) : List (String × WallTime × WallTime) :=
  ds.flatMap (daySlots w)

/-- Lines 50–54: the generator feeding `min`: start hours of slots whose start
time is not the midnight sentinel. -/
def startHours (w : Week) (ds : List String) : List Nat :=
  ((timeSlots w ds).filter fun s => s.2.1 ≠ midnight).map fun s => s.2.1.hour

/-- Lines 55–62: the generator feeding `max`: end hours of slots whose end time
is not the midnight sentinel. -/
def endHours (w : Week) (ds : List String) : List Nat :=
  ((timeSlots w ds).filter fun s => s.2.2 ≠ midnight).map fun s => s.2.2.hour

/-- Line 50: `earliest_hour`; `none` when `min` sees an empty sequence. -/
def earliestHour (w : Week) (ds : List String) : Option Nat :=
  (startHours w ds).min?

/-- Lines 55–62: `latest_hour = max(...) + 1`; `none` when `max` sees an empty
sequence. -/
def latestHour (w : Week) (ds : List String) : Option Nat :=
  ((endHours w ds).max?).map (· + 1)

/-- Line 88: glyph for an interval starting at the half hour. -/
def lowerHalfGlyph : String := "▄▄▄▄▄▄▄▄▄▄▄▄▄▄▄▄▄"

/-- Line 90: glyph for an interval ending at the half hour. -/
def upperHalfGlyph : String := "▀▀▀▀▀▀▀▀▀▀▀▀▀▀▀▀▀"

/-- Lines 92 and 96: the full-block glyph. -/
def fullBlockGlyph : String := "█████████████████"

/-- Lines 80–97: the cell content for one day's interval list at a given hour.
The Python loop assigns and `break`s on the first interval that matches either
branch; the default is the empty string. -/
def cellContentFine : List TimeInterval → Nat → String
  | [], _ => ""
  | (s, e) :: rest, hour =>
    if s.hour ≤ hour ∧ hour < e.hour then
      if s.hour = hour ∧ s.minute = 30 then lowerHalfGlyph
      else if e.hour = hour + 1 ∧ e.minute = 30 then upperHalfGlyph
      else fullBlockGlyph
    else if s.hour = hour ∧ s.minute = 0 then fullBlockGlyph
    else cellContentFine rest hour

/-- Lines 79–99: the cell for `(day, hour)`: empty when the day is absent from
the schedule dictionary, otherwise the loop over the day's intervals. -/
def cellFor (w : Week) (day : String) (hour : Nat) : String :=
  match w.lookup day with
  | some ivs => cellContentFine ivs hour
  | none => ""

/-- Line 86 or line 95: the condition under which an interval marks the cell
covered (sets the cell content and `break`s). -/
def marksCovered (iv : TimeInterval) (hour : Nat) : Bool :=
  decide (iv.1.hour ≤ hour ∧ hour < iv.2.hour) ||
    decide (iv.1.hour = hour ∧ iv.1.minute = 0)

/-- Lines 87–96: the glyph a matching interval contributes.  When only the
line-95 condition holds (start hour at minute 0, outside the main span), the
outer `if` fails and the glyph is the line-96 full block. -/
def glyphFor (iv : TimeInterval) (hour : Nat) : String :=
  if iv.1.hour ≤ hour ∧ hour < iv.2.hour then
    if iv.1.hour = hour ∧ iv.1.minute = 30 then lowerHalfGlyph
    else if iv.2.hour = hour + 1 ∧ iv.2.minute = 30 then upperHalfGlyph
    else fullBlockGlyph
  else fullBlockGlyph

/-- Modelled from the spec: the coarse-policy Cell Renderer of §4.4.  The code
under `src/` contains only the fine-policy renderer
(`generate_weekly_schedule_transpose_12hr`); the coarse whole-hour variant the
specification describes ("the renderer is duplicated with two policies in the
source", §2) is not among the files available.  Per §4.4: the cell is covered
(a fixed solid-block glyph) if any interval satisfies
`start.hour <= hour < end.hour`, or `start.hour == hour && start.minute == 0`;
otherwise the cell is empty. -/
def cellContentCoarse : List TimeInterval → Nat → String
  | [], _ => ""
  | (s, e) :: rest, hour =>
    if s.hour ≤ hour ∧ hour < e.hour then fullBlockGlyph
    else if s.hour = hour ∧ s.minute = 0 then fullBlockGlyph
    else cellContentCoarse rest hour

/-- The failure modes of the render pipeline. -/
inductive RenderError where
  /-- Python `ValueError` from `days.index(start_day)`, line 30. -/
  | invalidDay
  /-- Python `ValueError` from `min()` / `max()` over an empty sequence,
  lines 50–62: a generic arithmetic failure, not a schedule-specific one. -/
  | minEmptySequence
  /-- The explicit empty-schedule failure the specification requires (§7).
  Present in the error model so that theorems can distinguish it; the source
  never raises it. -/
  | emptySchedule
deriving DecidableEq, Repr

/-- Two-digit zero padding, as in `strftime` `%I`. -/
def pad2 (n : Nat) : String :=
  if n < 10 then "0" ++ toString n else toString n

/-- Lines 66–68: the row label `datetime(1900, 1, 1, hour).strftime(...)` with
format `"%I:00 %p"` (or the midnight edge case `"%I:00 AM"`, which prints the
same string `"12:00 AM"` for hour 0). -/
def timeLabel (h : Nat) : String :=
  let h12 := if h % 12 = 0 then 12 else h % 12
  pad2 h12 ++ ":00 " ++ (if h < 12 then "AM" else "PM")

/-- Lines 74–78: the hour recovered from the row label:
`datetime.strptime(time_str, "%I:00 %p").hour`, with the literal `"12:00 AM"`
short-circuited to 0. -/
def rowHourOf (s : String) : Nat :=
  if s = "12:00 AM" then 0
  else
    let h12 := (s.take 2).toNat?.getD 0
    if s.endsWith ("PM") then (if h12 = 12 then 12 else h12 + 12)
    else (if h12 = 12 then 0 else h12)

/-- Lines 72–100: one table row: the time label followed by one cell per
rotated day, the cell computed at the hour re-parsed from the label. -/
def tableRow (w : Week) (ds : List String) (timeStr : String) : List String :=
  timeStr :: ds.map fun day => cellFor w day (rowHourOf timeStr)

/-- Lines 64–100: the table body: one row per hour of
`range(earliest_hour, latest_hour)`. -/
def tableData (w : Week) (ds : List String) (e l : Nat) : List (List String) :=
  (List.range' e (l - e)).map fun h => tableRow w ds (timeLabel h)

/-- Right-pads a cell to the column width. -/
def padRight (s : String) (width : Nat) : String :=
  s ++ String.mk (List.replicate (width - s.length) ' ')

/-- Per-column widths: the widest cell or header content of each column. -/
def colWidths (headers : List String) (rows : List (List String)) : List Nat :=
  (List.range headers.length).map fun j =>
    rows.foldl (fun acc r => max acc ((r.get? j).getD ("")).length)
      ((headers.get? j).getD ("")).length

/-- One horizontal border line of the grid. -/
def borderLine (ws : List Nat) (c : Char) : String :=
  "+" ++ String.join (ws.map fun n => String.mk (List.replicate (n + 2) c) ++ "+")

/-- One content line of the grid. -/
def contentLine (ws : List Nat) (cells : List String) : String :=
  "|" ++ String.join (List.zipWith (fun width cell => " " ++ padRight cell width ++ " |") ws cells)

/-- Modelled from the spec: the Table Serializer of §4.5, realized in the
source (line 102) by the third-party `tabulate(..., tablefmt="grid")` call,
whose implementation is not part of this repository.  Per §4.5 it is a pure,
deterministic layout: a bordered, fixed-column-width text grid whose column
widths are the widest cell/header content per column, with a header row
listing "Time" followed by the rotated day names. -/
def serializeTable (headers : List String) (rows : List (List String)) : String :=
  let ws := colWidths headers rows
  String.intercalate ("\n")
    ([borderLine ws '-', contentLine ws headers, borderLine ws '='] ++
      rows.flatMap fun r => [contentLine ws r, borderLine ws '-'])

/-- Lines 27–103: the whole of `generate_weekly_schedule_transpose_12hr`,
with each Python `ValueError` reified as an `Except.error`. -/
def render (w : Week) (startDay : String) : Except RenderError String :=
  match daysList.indexOf? startDay with
  | none => Except.error RenderError.invalidDay
  | some i =>
    match earliestHour w (daysList.drop i ++ daysList.take i) with
    | none => Except.error RenderError.minEmptySequence
    | some e =>
      match latestHour w (daysList.drop i ++ daysList.take i) with
      | none => Except.error RenderError.minEmptySequence
      | some l =>
        Except.ok (serializeTable (("Time") :: (daysList.drop i ++ daysList.take i))
          (tableData w (daysList.drop i ++ daysList.take i) e l))

/-- The hour values `range(earliest_hour, latest_hour)` that index the rows of
a render starting at `startDay`; `none` when the render fails. -/
def hourRange (w : Week) (startDay : String) : Option (List Nat) :=
  match rotatedDays startDay with
  | none => none
  | some ds =>
    match earliestHour w ds, latestHour w ds with
    | some e, some l => some (List.range' e (l - e))
    | _, _ => none

/-- The column of glyphs the render starting at `startDay` produces for `day`,
extracted from the table body at the day's column position. -/
def dayColumn (w : Week) (startDay day : String) : Option (List String) :=
  match rotatedDays startDay with
  | none => none
  | some ds =>
    match earliestHour w ds, latestHour w ds with
    | some e, some l =>
      (ds.indexOf? day).map fun i =>
        (tableData w ds e l).map fun row => (row[i + 1]?).getD ("")
    | _, _ => none

/-- Following the specification's words (§4.3 Range Deriver), for comparison
with the source's `earliestHour`: the minimum of `start.hour` over all
intervals across all days, absent days and days with no intervals contributing
nothing. -/
def specEarliestHour (w : Week) (ds : List String) : Option Nat :=
  (ds.flatMap fun day => ((w.lookup day).getD []).map fun iv => iv.1.hour).min?

/-- Following the specification's words (§4.3 Range Deriver): the maximum of
`end.hour` over all intervals across all days, plus 1. -/
def specLatestHour (w : Week) (ds : List String) : Option Nat :=
  ((ds.flatMap fun day => ((w.lookup day).getD []).map fun iv => iv.2.hour).max?).map (· + 1)

/-- The week of the end-to-end scenario restricted to the C2 counterexample:
Monday has an explicit interval starting at 12:00 AM, Tuesday an ordinary one. -/
def c2Week : Week :=
  [("Monday", [(⟨0, 0⟩, ⟨5, 0⟩)]), ("Tuesday", [(⟨9, 0⟩, ⟨10, 0⟩)])]

/-- The single interval (10:30 AM, 02:00 PM) of the half-hour boundary scenario. -/
def c3Ivs : List TimeInterval := [(⟨10, 30⟩, ⟨14, 0⟩)]

/-- The single interval (09:00 AM, 05:00 PM) of the coverage scenario. -/
def c6Ivs : List TimeInterval := [(⟨9, 0⟩, ⟨17, 0⟩)]

/- ### Helper lemmas -/

theorem min?_perm_nat {l₁ l₂ : List Nat} (h : l₁.Perm l₂) : l₁.min? = l₂.min? := by
  cases e : l₂.min? with
  | none =>
    rw [List.min?_eq_none_iff] at e
    subst e
    rw [List.min?_eq_none_iff]
    exact h.eq_nil
  | some a =>
    rw [List.min?_eq_some_iff'] at e
    rw [List.min?_eq_some_iff']
    exact ⟨h.mem_iff.mpr e.1, fun b hb => e.2 b (h.mem_iff.mp hb)⟩

theorem max?_perm_nat {l₁ l₂ : List Nat} (h : l₁.Perm l₂) : l₁.max? = l₂.max? := by
  cases e : l₂.max? with
  | none =>
    rw [List.max?_eq_none_iff] at e
    subst e
    rw [List.max?_eq_none_iff]
    exact h.eq_nil
  | some a =>
    rw [List.max?_eq_some_iff'] at e
    rw [List.max?_eq_some_iff']
    exact ⟨h.mem_iff.mpr e.1, fun b hb => e.2 b (h.mem_iff.mp hb)⟩

theorem isRotated_of_rotate_eq {α : Type} {l l' : List α} (n : Nat)
    (h : l.rotate n = l') : l ~r l' := ⟨n, h⟩

/-- Everything the rotation of lines 30–31 guarantees for a recognized start
day: its index, the rotated list, that the rotated list starts at the start
day, and that it is a cyclic rotation of the fixed weekday sequence. -/
theorem rotationFacts (s : String) (hs : s ∈ daysList) :
    ∃ i l, daysList.indexOf? s = some i ∧ rotatedDays s = some l ∧
      l = daysList.drop i ++ daysList.take i ∧ l = daysList.rotate i ∧
      l.head? = some s ∧ l.IsRotated daysList := by
  simp only [daysList, List.mem_cons, List.not_mem_nil, or_false] at hs
  rcases hs with rfl | rfl | rfl | rfl | rfl
  · exact ⟨0, _, by decide, by decide, rfl, by decide, by decide,
      isRotated_of_rotate_eq 5 (by decide)⟩
  · exact ⟨1, _, by decide, by decide, rfl, by decide, by decide,
      isRotated_of_rotate_eq 4 (by decide)⟩
  · exact ⟨2, _, by decide, by decide, rfl, by decide, by decide,
      isRotated_of_rotate_eq 3 (by decide)⟩
  · exact ⟨3, _, by decide, by decide, rfl, by decide, by decide,
      isRotated_of_rotate_eq 2 (by decide)⟩
  · exact ⟨4, _, by decide, by decide, rfl, by decide, by decide,
      isRotated_of_rotate_eq 1 (by decide)⟩

theorem timeSlots_perm (w : Week) {ds₁ ds₂ : List String} (h : ds₁.Perm ds₂) :
    (timeSlots w ds₁).Perm (timeSlots w ds₂) :=
  h.flatMap_right _

theorem earliestHour_perm (w : Week) {ds₁ ds₂ : List String} (h : ds₁.Perm ds₂) :
    earliestHour w ds₁ = earliestHour w ds₂ :=
  min?_perm_nat (((timeSlots_perm w h).filter _).map _)

theorem endHours_perm (w : Week) {ds₁ ds₂ : List String} (h : ds₁.Perm ds₂) :
    (endHours w ds₁).Perm (endHours w ds₂) :=
  ((timeSlots_perm w h).filter _).map _

theorem latestHour_perm (w : Week) {ds₁ ds₂ : List String} (h : ds₁.Perm ds₂) :
    latestHour w ds₁ = latestHour w ds₂ := by
  rw [latestHour, latestHour, max?_perm_nat (endHours_perm w h)]

theorem startHours_nil (w : Week) (ds : List String)
    (h : ∀ d ∈ ds, w.lookup d = none) : startHours w ds = [] := by
  simp only [startHours, List.map_eq_nil_iff, List.filter_eq_nil_iff]
  intro a ha
  rw [timeSlots, List.mem_flatMap] at ha
  obtain ⟨day, hday, hmem⟩ := ha
  rw [daySlots, h day hday, List.mem_singleton] at hmem
  subst hmem
  simp

/- ### Claims -/

/-- C1: the claim (spec §4.3, §7, §8) is that a week with every day absent
fails with an `EmptyScheduleError`, never a generic arithmetic failure.  The
code does the opposite: lines 49–62 run Python's `min()` over an empty
generator, a generic `ValueError`, and no `EmptyScheduleError` exists in the
source.  This theorem evaluates the code on every all-absent input. -/
theorem allAbsent_raises_min_over_empty (w : Week) (s : String) (hs : s ∈ daysList)
    (habs : ∀ d ∈ daysList, w.lookup d = none) :
    render w s = Except.error RenderError.minEmptySequence ∧
      render w s ≠ Except.error RenderError.emptySchedule := by
  obtain ⟨i, l, hidx, _, hl, _, _, hr⟩ := rotationFacts s hs
  have hmem : ∀ d ∈ l, w.lookup d = none := fun d hd => habs d (hr.perm.mem_iff.mp hd)
  have h2 : earliestHour w (daysList.drop i ++ daysList.take i) = none := by
    rw [← hl, earliestHour, startHours_nil w l hmem]
    rfl
  have hres : render w s = Except.error RenderError.minEmptySequence := by
    simp only [render, hidx, h2]
  exact ⟨hres, by rw [hres]; simp⟩

/-- C1 witness: the empty schedule dictionary with start day Monday. -/
theorem allAbsent_raises_min_over_empty_witness :
    ("Monday" ∈ daysList ∧ ∀ d ∈ daysList, (([] : Week).lookup d = none)) ∧
      render ([] : Week) "Monday" = Except.error RenderError.minEmptySequence ∧
        render ([] : Week) "Monday" ≠ Except.error RenderError.emptySchedule :=
  ⟨⟨by decide, by decide⟩,
    allAbsent_raises_min_over_empty [] ("Monday") (by decide) (by decide)⟩

/-- C2: the claim says `earliestHour` is the minimum of `start.hour` over all
intervals, an explicit 12:00 AM start included.  On `c2Week` the specification's
minimum is 0, but lines 50–54 filter out every slot whose start equals the
midnight sentinel, so the code computes 9: the sentinel-for-absence conflation
the spec's §9 flags as a defect. -/
theorem earliest_drops_explicit_midnight :
    earliestHour c2Week daysList = some 9 ∧
      specEarliestHour c2Week daysList = some 0 ∧
      latestHour c2Week daysList = some 11 ∧
      specLatestHour c2Week daysList = some 11 := by decide

/-- C3: under the fine policy, (10:30 AM, 02:00 PM) renders lower-half at hour
10, full at hours 11–13; the end-boundary upper-half case does not trigger at
hour 13 because the end minute is 0, not 30. -/
theorem halfHourBoundaryScenario :
    cellContentFine c3Ivs 10 = lowerHalfGlyph ∧
      cellContentFine c3Ivs 11 = fullBlockGlyph ∧
      cellContentFine c3Ivs 12 = fullBlockGlyph ∧
      cellContentFine c3Ivs 13 = fullBlockGlyph ∧
      fullBlockGlyph ≠ upperHalfGlyph := by decide

/-- C4: an interval from (h, 30) to (h+1, 30) satisfies both half-hour rules at
displayed hour h; lines 87–90 test the start rule first, so the lower-half
glyph wins. -/
theorem startHalfHourTieBreak (h : Nat) :
    cellContentFine [(⟨h, 30⟩, ⟨h + 1, 30⟩)] h = lowerHalfGlyph ∧
      lowerHalfGlyph ≠ upperHalfGlyph := by
  constructor
  · simp [cellContentFine]
  · decide

/-- C5: the cell glyph is decided by the first interval in sequence order that
marks the cell covered (lines 86–97, the loop `break`s on a match); later
intervals are not consulted, and intervals are not merged. -/
theorem firstMatchingIntervalWins (ivs : List TimeInterval) (hour : Nat) :
    cellContentFine ivs hour =
      Option.elim (ivs.find? fun iv => marksCovered iv hour) ("")
        (fun iv => glyphFor iv hour) := by
  induction ivs with
  | nil => rfl
  | cons iv rest ih =>
    obtain ⟨s, e⟩ := iv
    by_cases h1 : s.hour ≤ hour ∧ hour < e.hour
    · simp [cellContentFine, marksCovered, glyphFor, h1]
    · by_cases h2 : s.hour = hour ∧ s.minute = 0
      · simp [cellContentFine, marksCovered, glyphFor, h1, h2]
      · simp [cellContentFine, marksCovered, h1, h2, ih]

/-- C6: under the coarse policy, (09:00 AM, 05:00 PM) covers hours 9–16 and
leaves hours 8 and 17 empty. -/
theorem coarseCoverageScenario :
    cellContentCoarse c6Ivs 8 = ("") ∧
      cellContentCoarse c6Ivs 9 = fullBlockGlyph ∧
      cellContentCoarse c6Ivs 10 = fullBlockGlyph ∧
      cellContentCoarse c6Ivs 11 = fullBlockGlyph ∧
      cellContentCoarse c6Ivs 12 = fullBlockGlyph ∧
      cellContentCoarse c6Ivs 13 = fullBlockGlyph ∧
      cellContentCoarse c6Ivs 14 = fullBlockGlyph ∧
      cellContentCoarse c6Ivs 15 = fullBlockGlyph ∧
      cellContentCoarse c6Ivs 16 = fullBlockGlyph ∧
      cellContentCoarse c6Ivs 17 = ("") := by decide

/-- C7: for each of the five recognized start days, the header's day columns
are the fixed sequence rotated to begin at that day, wrapping circularly, and
the rotation leaves the interval data (the multiset of time slots) unchanged. -/
theorem dayRotationWraps (s : String) (hs : s ∈ daysList) :
    ∃ i l, daysList.indexOf? s = some i ∧ rotatedDays s = some l ∧
      l = daysList.rotate i ∧ l.head? = some s ∧ l.IsRotated daysList ∧
      ∀ w : Week, (timeSlots w l).Perm (timeSlots w daysList) := by
  obtain ⟨i, l, h1, h2, _, h4, h5, h6⟩ := rotationFacts s hs
  exact ⟨i, l, h1, h2, h4, h5, h6, fun w => timeSlots_perm w h6.perm⟩

/-- C7 witness: start day Wednesday. -/
theorem dayRotationWraps_witness :
    ("Wednesday" ∈ daysList) ∧
      ∃ i l, daysList.indexOf? ("Wednesday") = some i ∧
        rotatedDays ("Wednesday") = some l ∧ l = daysList.rotate i ∧
        l.head? = some ("Wednesday") ∧ l.IsRotated daysList ∧
        ∀ w : Week, (timeSlots w l).Perm (timeSlots w daysList) :=
  ⟨by decide, dayRotationWraps ("Wednesday") (by decide)⟩

theorem indexOf?_mem_get {l : List String} {d : String} (h : d ∈ l) :
    ∃ i, l.indexOf? d = some i ∧ l[i]? = some d := by
  induction l with
  | nil => cases h
  | cons a t ih =>
    by_cases had : a = d
    · subst had
      exact ⟨0, by simp [List.indexOf?], by simp⟩
    · have hdt : d ∈ t := by
        rcases List.mem_cons.mp h with h1 | h1
        · exact absurd h1.symm had
        · exact h1
      obtain ⟨i, h1, h2⟩ := ih hdt
      refine ⟨i + 1, ?_, by simpa using h2⟩
      have hne : (a == d) = false := by
        simp [had]
      simp only [List.indexOf?, List.findIdx?_cons, hne, Bool.false_eq_true, if_false,
        List.findIdx?_start_succ]
      simp only [List.indexOf?] at h1
      rw [h1]
      rfl

theorem hour_mem_startHours (w : Week) (ds : List String) {day : String} (hday : day ∈ ds)
    {iv : TimeInterval} (hiv : iv ∈ (w.lookup day).getD []) (hne : iv.1 ≠ midnight) :
    iv.1.hour ∈ startHours w ds := by
  cases hlk : w.lookup day with
  | none =>
    rw [hlk] at hiv
    simp at hiv
  | some ivs =>
    rw [hlk] at hiv
    simp only [Option.getD_some] at hiv
    simp only [startHours, List.mem_map, List.mem_filter, timeSlots, List.mem_flatMap]
    refine ⟨(day, iv.1, iv.2), ⟨⟨day, hday, ?_⟩, ?_⟩, rfl⟩
    · rw [daySlots, hlk]
      exact List.mem_map.mpr ⟨iv, hiv, rfl⟩
    · simpa using hne

theorem hour_mem_endHours (w : Week) (ds : List String) {day : String} (hday : day ∈ ds)
    {iv : TimeInterval} (hiv : iv ∈ (w.lookup day).getD []) (hne : iv.2 ≠ midnight) :
    iv.2.hour ∈ endHours w ds := by
  cases hlk : w.lookup day with
  | none =>
    rw [hlk] at hiv
    simp at hiv
  | some ivs =>
    rw [hlk] at hiv
    simp only [Option.getD_some] at hiv
    simp only [endHours, List.mem_map, List.mem_filter, timeSlots, List.mem_flatMap]
    refine ⟨(day, iv.1, iv.2), ⟨⟨day, hday, ?_⟩, ?_⟩, rfl⟩
    · rw [daySlots, hlk]
      exact List.mem_map.mpr ⟨iv, hiv, rfl⟩
    · simpa using hne

theorem earliestHour_isSome (w : Week) (ds : List String)
    (hne : startHours w ds ≠ []) : ∃ e, earliestHour w ds = some e := by
  cases e : (startHours w ds).min? with
  | none =>
    rw [List.min?_eq_none_iff] at e
    exact absurd e hne
  | some a => exact ⟨a, e⟩

theorem latestHour_isSome (w : Week) (ds : List String)
    (hne : endHours w ds ≠ []) : ∃ lt, latestHour w ds = some lt := by
  cases e : (endHours w ds).max? with
  | none =>
    rw [List.max?_eq_none_iff] at e
    exact absurd e hne
  | some a =>
    refine ⟨a + 1, ?_⟩
    rw [latestHour, e]
    rfl

theorem tableRow_get (w : Week) (ds : List String) (t : String) {i : Nat} {d : String}
    (hget : ds[i]? = some d) :
    (tableRow w ds t)[i + 1]? = some (cellFor w d (rowHourOf t)) := by
  simp [tableRow, hget]

theorem column_extract (w : Week) (ds : List String) {i : Nat} {d : String}
    (hget : ds[i]? = some d) (e l : Nat) :
    (tableData w ds e l).map (fun row => (row[i + 1]?).getD ("")) =
      (List.range' e (l - e)).map (fun h => cellFor w d (rowHourOf (timeLabel h))) := by
  simp only [tableData, List.map_map]
  refine List.map_congr_left fun h _ => ?_
  simp only [Function.comp_apply, tableRow_get w ds _ hget, Option.getD_some]

/-- C8: for any week with a usable interval and any two valid start days, both
renders lay out a cyclic rotation of Monday..Friday, and the column of glyphs
extracted at a given day's position is the same list in both renders; only the
position of that column changes with the start day. -/
theorem rotationInvariantColumns (w : Week) (s₁ s₂ d : String)
    (hs₁ : s₁ ∈ daysList) (hs₂ : s₂ ∈ daysList) (hd : d ∈ daysList)
    (hw : ∃ d0 ∈ daysList, ∃ iv ∈ (w.lookup d0).getD [],
      iv.1 ≠ midnight ∧ iv.2 ≠ midnight) :
    (∃ l₁, rotatedDays s₁ = some l₁ ∧ l₁.IsRotated daysList) ∧
      (∃ l₂, rotatedDays s₂ = some l₂ ∧ l₂.IsRotated daysList) ∧
      ∃ col, dayColumn w s₁ d = some col ∧ dayColumn w s₂ d = some col := by
  obtain ⟨i₁, l₁, _, hrot₁, _, _, _, hR₁⟩ := rotationFacts s₁ hs₁
  obtain ⟨i₂, l₂, _, hrot₂, _, _, _, hR₂⟩ := rotationFacts s₂ hs₂
  have hp₁ : l₁.Perm daysList := hR₁.perm
  have hp₂ : l₂.Perm daysList := hR₂.perm
  obtain ⟨d0, hd0, iv, hiv, hivs, hive⟩ := hw
  have hmemS : iv.1.hour ∈ startHours w daysList := hour_mem_startHours w daysList hd0 hiv hivs
  have hmemE : iv.2.hour ∈ endHours w daysList := hour_mem_endHours w daysList hd0 hiv hive
  obtain ⟨e, hE⟩ := earliestHour_isSome w daysList (by rintro hnil; rw [hnil] at hmemS; cases hmemS)
  obtain ⟨lt, hL⟩ := latestHour_isSome w daysList (by rintro hnil; rw [hnil] at hmemE; cases hmemE)
  have hE₁ : earliestHour w l₁ = some e := (earliestHour_perm w hp₁).trans hE
  have hE₂ : earliestHour w l₂ = some e := (earliestHour_perm w hp₂).trans hE
  have hL₁ : latestHour w l₁ = some lt := (latestHour_perm w hp₁).trans hL
  have hL₂ : latestHour w l₂ = some lt := (latestHour_perm w hp₂).trans hL
  obtain ⟨j₁, hj₁, hg₁⟩ := indexOf?_mem_get (hp₁.mem_iff.mpr hd)
  obtain ⟨j₂, hj₂, hg₂⟩ := indexOf?_mem_get (hp₂.mem_iff.mpr hd)
  refine ⟨⟨l₁, hrot₁, hR₁⟩, ⟨l₂, hrot₂, hR₂⟩,
    (List.range' e (lt - e)).map (fun h => cellFor w d (rowHourOf (timeLabel h))), ?_, ?_⟩
  · simp only [dayColumn, hrot₁, hE₁, hL₁, hj₁, Option.map_some']
    rw [column_extract w l₁ hg₁ e lt]
  · simp only [dayColumn, hrot₂, hE₂, hL₂, hj₂, Option.map_some']
    rw [column_extract w l₂ hg₂ e lt]

/-- C8 witness: the end-to-end week, start days Monday and Wednesday, column
Tuesday. -/
theorem rotationInvariantColumns_witness :
    (("Monday" ∈ daysList) ∧ ("Wednesday" ∈ daysList) ∧ ("Tuesday" ∈ daysList) ∧
      (∃ d0 ∈ daysList, ∃ iv ∈ ((c2Week.lookup d0).getD []),
        iv.1 ≠ midnight ∧ iv.2 ≠ midnight)) ∧
      (∃ l₁, rotatedDays ("Monday") = some l₁ ∧ l₁.IsRotated daysList) ∧
      (∃ l₂, rotatedDays ("Wednesday") = some l₂ ∧ l₂.IsRotated daysList) ∧
      ∃ col, dayColumn c2Week ("Monday") ("Tuesday") = some col ∧
        dayColumn c2Week ("Wednesday") ("Tuesday") = some col :=
  ⟨⟨by decide, by decide, by decide,
      ⟨"Tuesday", by decide, (⟨9, 0⟩, ⟨10, 0⟩), by decide, by decide, by decide⟩⟩,
    rotationInvariantColumns c2Week ("Monday") ("Wednesday") ("Tuesday")
      (by decide) (by decide) (by decide)
      ⟨"Tuesday", by decide, (⟨9, 0⟩, ⟨10, 0⟩), by decide, by decide, by decide⟩⟩

theorem lookup_insert_empty (w : Week) (d day : String) (hne : day ≠ d) :
    ((d, ([] : List TimeInterval)) :: w).lookup day = w.lookup day := by
  rw [List.lookup_cons]
  rw [beq_eq_false_iff_ne.mpr hne]

theorem daySlots_congr {w₁ w₂ : Week} (day : String)
    (h : w₁.lookup day = w₂.lookup day) : daySlots w₁ day = daySlots w₂ day := by
  rw [daySlots, daySlots, h]

theorem filter_timeSlots_insert_empty (w : Week) (d : String) (hd : w.lookup d = none)
    (p : String × WallTime × WallTime → Bool)
    (hp : ∀ day, p (day, midnight, midnight) = false) (ds : List String) :
    (timeSlots ((d, ([] : List TimeInterval)) :: w) ds).filter p =
      (timeSlots w ds).filter p := by
  induction ds with
  | nil => rfl
  | cons day rest ih =>
    simp only [timeSlots, List.flatMap_cons, List.filter_append]
    simp only [timeSlots] at ih
    rw [ih]
    congr 1
    by_cases hday : day = d
    · subst hday
      rw [daySlots, List.lookup_cons_self, daySlots, hd]
      simp [hp]
    · rw [daySlots_congr day (lookup_insert_empty w d day hday)]

theorem startHours_insert_empty (w : Week) (d : String) (hd : w.lookup d = none)
    (ds : List String) :
    startHours ((d, ([] : List TimeInterval)) :: w) ds = startHours w ds := by
  rw [startHours, startHours,
    filter_timeSlots_insert_empty w d hd _ (fun day => by simp [midnight]) ds]

theorem endHours_insert_empty (w : Week) (d : String) (hd : w.lookup d = none)
    (ds : List String) :
    endHours ((d, ([] : List TimeInterval)) :: w) ds = endHours w ds := by
  rw [endHours, endHours,
    filter_timeSlots_insert_empty w d hd _ (fun day => by simp [midnight]) ds]

theorem cellFor_insert_empty (w : Week) (d : String) (hd : w.lookup d = none)
    (day : String) (hour : Nat) :
    cellFor ((d, ([] : List TimeInterval)) :: w) day hour = cellFor w day hour := by
  by_cases hday : day = d
  · subst hday
    rw [cellFor, cellFor, List.lookup_cons_self, hd]
    rfl
  · rw [cellFor, cellFor, lookup_insert_empty w d day hday]

theorem tableData_insert_empty (w : Week) (d : String) (hd : w.lookup d = none)
    (ds : List String) (e l : Nat) :
    tableData ((d, ([] : List TimeInterval)) :: w) ds e l = tableData w ds e l := by
  simp only [tableData]
  refine List.map_congr_left fun h _ => ?_
  simp only [tableRow]
  congr 1
  exact List.map_congr_left fun day _ => cellFor_insert_empty w d hd day _

/-- C9: rendering a week in which day `d` maps to an empty interval sequence is
byte-identical to rendering the same week with `d` absent from the mapping:
the empty day adds no real slot, the absent day adds only the sentinel slot
that the range filters drop, and both leave every cell of column `d` empty. -/
theorem explicitEmptyDay_eq_absentDay (w : Week) (s d : String)
    (hd : w.lookup d = none) :
    render ((d, ([] : List TimeInterval)) :: w) s = render w s := by
  cases hidx : daysList.indexOf? s with
  | none => simp only [render, hidx]
  | some i =>
    simp only [render, hidx]
    rw [show earliestHour ((d, ([] : List TimeInterval)) :: w)
          (daysList.drop i ++ daysList.take i) =
        earliestHour w (daysList.drop i ++ daysList.take i) by
      rw [earliestHour, earliestHour, startHours_insert_empty w d hd]]
    rw [show latestHour ((d, ([] : List TimeInterval)) :: w)
          (daysList.drop i ++ daysList.take i) =
        latestHour w (daysList.drop i ++ daysList.take i) by
      rw [latestHour, latestHour, endHours_insert_empty w d hd]]
    cases earliestHour w (daysList.drop i ++ daysList.take i) with
    | none => rfl
    | some e =>
      cases latestHour w (daysList.drop i ++ daysList.take i) with
      | none => rfl
      | some lt =>
        dsimp only
        rw [tableData_insert_empty w d hd]

/-- The one-day week used as C9's witness input. -/
def c9Week : Week := [("Monday", [(⟨9, 0⟩, ⟨17, 0⟩)])]

/-- C9 witness: Tuesday explicitly empty versus Tuesday absent. -/
theorem explicitEmptyDay_eq_absentDay_witness :
    (c9Week.lookup ("Tuesday") = none) ∧
      render (("Tuesday", ([] : List TimeInterval)) :: c9Week) ("Monday") =
        render c9Week ("Monday") :=
  ⟨by decide, explicitEmptyDay_eq_absentDay c9Week ("Monday") ("Tuesday") (by decide)⟩

/-- The single interval starting at (h, 30) and ending inside the same hour. -/
def c10Ivs (h m : Nat) : List TimeInterval := [(⟨h, 30⟩, ⟨h, m⟩)]

/-- A week whose only entry is the same-hour interval on Monday. -/
def c10Week (h m : Nat) : Week := [("Monday", c10Ivs h m)]

/-- C10: an interval starting at minute 30 and ending later inside the same
hour h contributes hour h to the derived row range (the grid gets the row for
hour h) yet renders no glyph at any hour: lines 86 and 95 can never match it,
so the widened grid stays blank in its column. -/
theorem invisibleIntervalWidensGrid (h m : Nat) (hm : 30 < m) :
    hourRange (c10Week h m) ("Monday") = some [h] ∧
      dayColumn (c10Week h m) ("Monday") ("Monday") = some [("")] ∧
      ∀ hr : Nat, cellContentFine (c10Ivs h m) hr = "" := by
  have hm0 : m ≠ 0 := by omega
  have hcell : ∀ hr : Nat, cellContentFine (c10Ivs h m) hr = "" := by
    intro hr
    simp only [c10Ivs, cellContentFine]
    split_ifs with h1 h2 h3 h4
    · exact absurd h1 (by omega)
    · exact absurd h1 (by omega)
    · exact absurd h1 (by omega)
    · exact h4.2.elim
    · rfl
  have hp1 : (decide ((⟨h, 30⟩ : WallTime) ≠ midnight)) = true := by
    simp [midnight]
  have hp2 : (decide ((⟨h, m⟩ : WallTime) ≠ midnight)) = true := by
    simp [midnight, hm0]
  have hps : (decide ((midnight : WallTime) ≠ midnight)) = false := by
    simp
  have hts : timeSlots (c10Week h m) (daysList.drop 0 ++ daysList.take 0) =
      [("Monday", ⟨h, 30⟩, ⟨h, m⟩), ("Tuesday", midnight, midnight),
        ("Wednesday", midnight, midnight), ("Thursday", midnight, midnight),
        ("Friday", midnight, midnight)] := rfl
  have hsh : startHours (c10Week h m) (daysList.drop 0 ++ daysList.take 0) = [h] := by
    rw [startHours, hts]
    simp [List.filter_cons, hps, midnight]
  have heh : endHours (c10Week h m) (daysList.drop 0 ++ daysList.take 0) = [h] := by
    rw [endHours, hts]
    simp [List.filter_cons, hps, midnight, hm0]
  have hE : earliestHour (c10Week h m) (daysList.drop 0 ++ daysList.take 0) = some h := by
    rw [earliestHour, hsh]
    rfl
  have hLa : latestHour (c10Week h m) (daysList.drop 0 ++ daysList.take 0) = some (h + 1) := by
    rw [latestHour, heh]
    rfl
  have hrot : rotatedDays ("Monday") = some (daysList.drop 0 ++ daysList.take 0) := rfl
  have hsub : h + 1 - h = 1 := by omega
  refine ⟨?_, ?_, hcell⟩
  · simp only [hourRange, hrot, hE, hLa, hsub, List.range'_one]
  · have hidx : (daysList.drop 0 ++ daysList.take 0).indexOf? ("Monday") = some 0 := rfl
    have hget : (daysList.drop 0 ++ daysList.take 0)[0]? = some ("Monday") := rfl
    simp only [dayColumn, hrot, hE, hLa, hidx, Option.map_some']
    rw [column_extract (c10Week h m) _ hget h (h + 1)]
    rw [hsub, List.range'_one]
    simp only [List.map_cons, List.map_nil]
    have hcf : cellFor (c10Week h m) ("Monday") (rowHourOf (timeLabel h)) =
        cellContentFine (c10Ivs h m) (rowHourOf (timeLabel h)) := rfl
    rw [hcf, hcell]

/-- C10 witness: the interval (10:30, 10:45). -/
theorem invisibleIntervalWidensGrid_witness :
    (30 < 45) ∧
      (hourRange (c10Week 10 45) ("Monday") = some [10] ∧
        dayColumn (c10Week 10 45) ("Monday") ("Monday") = some [("")] ∧
        ∀ hr : Nat, cellContentFine (c10Ivs 10 45) hr = "") :=
  ⟨by decide, invisibleIntervalWidensGrid 10 45 (by decide)⟩

/-- C4 witness: displayed hour 10 with the interval (10:30, 11:30). -/
theorem startHalfHourTieBreak_witness :
    cellContentFine [(⟨10, 30⟩, ⟨10 + 1, 30⟩)] 10 = lowerHalfGlyph ∧
      lowerHalfGlyph ≠ upperHalfGlyph :=
  startHalfHourTieBreak 10

/-- C5 witness: two overlapping intervals at hour 10, the first one wins. -/
theorem firstMatchingIntervalWins_witness :
    cellContentFine [(⟨9, 0⟩, ⟨11, 0⟩), (⟨10, 30⟩, ⟨12, 0⟩)] 10 =
      Option.elim
        (([(⟨9, 0⟩, ⟨11, 0⟩), (⟨10, 30⟩, ⟨12, 0⟩)] :
            List TimeInterval).find? fun iv => marksCovered iv 10) ("")
        (fun iv => glyphFor iv 10) :=
  firstMatchingIntervalWins [(⟨9, 0⟩, ⟨11, 0⟩), (⟨10, 30⟩, ⟨12, 0⟩)] 10
